import Mathlib

/-!
Verification of the ROS2 service bridge (`src/main.rs`).

The development embeds the two pieces of core logic:

* `sanitize_and_checksum`, the endpoint-name sanitizer: a character pass
  keeping ASCII alphanumerics and underscore, a rolling checksum over the
  raw UTF-8 bytes of the original input, and a length-bounded
  concatenation `"ros2_" ++ truncated ++ checksum`;
* the relay handler registered with `provide_async`, which converts an
  inbound 2-field request to a downstream `AddTwoInts` request, performs
  the (fallible) send / receive exchange, and produces exactly one
  outbound response, absorbing downstream failures into a sentinel value.

Strings are Lean `String`s (sequences of Unicode scalar values, exactly
like Rust `&str` iterated with `chars()`); raw bytes are recovered with an
explicit UTF-8 encoder. `u64` arithmetic is embedded as `Nat` arithmetic
with explicit reduction modulo `2 ^ 64` where the source can wrap.
-/

set_option maxRecDepth 100000

namespace Bridge

/-- The checksum modulus `1_000_000_007` from the source. -/
def MOD : Nat := 1000000007

/-- Embedding of Rust `char::is_ascii_alphanumeric`: true exactly on
`'0'..'9'`, `'A'..'Z'`, `'a'..'z'`. -/
def isAsciiAlphanumeric (c : Char) : Bool :=
  (48 ≤ c.toNat && c.toNat ≤ 57) || (65 ≤ c.toNat && c.toNat ≤ 90) ||
    (97 ≤ c.toNat && c.toNat ≤ 122)

/-- One character of the sanitizing pass of `sanitize_and_checksum`:
ASCII alphanumerics and `'_'` are kept, every other character becomes
`'_'`. -/
def sanitizeChar (c : Char) : Char :=
  if isAsciiAlphanumeric c || c == '_' then c else '_'

/-- UTF-8 encoding of one Unicode scalar value, as byte values.  This is
the byte sequence Rust's `str::bytes` yields for the character. -/
def utf8Char (c : Char) : List Nat :=
  let v := c.toNat
  if v < 0x80 then [v]
  else if v < 0x800 then [0xC0 + v / 0x40, 0x80 + v % 0x40]
  else if v < 0x10000 then
    [0xE0 + v / 0x1000, 0x80 + v / 0x40 % 0x40, 0x80 + v % 0x40]
  else
    [0xF0 + v / 0x40000, 0x80 + v / 0x1000 % 0x40, 0x80 + v / 0x40 % 0x40,
      0x80 + v % 0x40]

/-- The UTF-8 byte sequence of a character list (Rust `str::bytes`). -/
def utf8Bytes (cs : List Char) : List Nat := (cs.map utf8Char).flatten

/-- Byte length of a character list (Rust `str::len`, which counts
bytes). -/
def utf8Len (cs : List Char) : Nat := (utf8Bytes cs).length

/-- One step of the checksum loop exactly as the source computes it in
`u64` arithmetic: `sum = (sum * 31 + b as u64) % 1_000_000_007`, where the
multiplication and the addition wrap modulo `2 ^ 64`. -/
def checksumStep (sum b : Nat) : Nat :=
  ((sum * 31 % 2 ^ 64 + b) % 2 ^ 64) % MOD

/-- The checksum loop of `sanitize_and_checksum` over a byte list. -/
def checksumBytes (bs : List Nat) : Nat := bs.foldl checksumStep 0

/-- Rust `String::truncate` restricted to the situation in the source:
keep leading characters while their UTF-8 bytes fit in the budget `n`.
On an ASCII-only string this keeps exactly the first `n` bytes, which is
what the source's call does (its argument is always ASCII there). -/
def truncateBytes : List Char → Nat → List Char
  | [], _ => []
  | c :: rest, n =>
    if utf8Len [c] ≤ n then c :: truncateBytes rest (n - utf8Len [c]) else []

/-- Embedding of `sanitize_and_checksum` from `src/main.rs`: sanitize the
characters, checksum the raw bytes of the original input in `u64`
arithmetic, truncate the sanitized part to the remaining byte budget of
256, and concatenate. -/
def sanitize_and_checksum (input : String) : String :=
  let sanitized : List Char := input.data.map sanitizeChar
  let sum : Nat := checksumBytes (utf8Bytes input.data)
  let checksum : String := Nat.repr sum
  let maxSanitizedLength : Nat :=
    256 - utf8Len "ros2_".data - utf8Len checksum.data
  let truncated : List Char :=
    if utf8Len sanitized > maxSanitizedLength then
      truncateBytes sanitized maxSanitizedLength
    else sanitized
  "ros2_" ++ String.mk truncated ++ checksum

/-- The checksum value of a string, as the source computes it. -/
def checksumValue (s : String) : Nat := checksumBytes (utf8Bytes s.data)

/-- The decimal checksum suffix of `sanitize_and_checksum s`. -/
def checksumDigits (s : String) : List Char := (Nat.repr (checksumValue s)).data

/-- The byte budget left for the sanitized segment. -/
def maxSanLen (s : String) : Nat := 256 - 5 - (checksumDigits s).length

/-- The truncated sanitized segment of `sanitize_and_checksum s`,
described by character count. -/
def sanSegment (s : String) : List Char :=
  (s.data.map sanitizeChar).take (maxSanLen s)

/-- One checksum step as the spec words it: exact modular arithmetic with
no wrapping. -/
def specChecksumStep (sum b : Nat) : Nat := (sum * 31 + b) % MOD

/-- The rolling checksum as the spec words it: over the raw bytes of the
original input, accumulator starting at 0, each byte `b` folded in as
`sum = (sum * 31 + b) mod 1_000_000_007`. -/
def specChecksum (s : String) : Nat :=
  (utf8Bytes s.data).foldl specChecksumStep 0

/-- The character set the sanitized identifier may use. -/
def allowedChar (c : Char) : Bool :=
  isAsciiAlphanumeric c || c == '_'

/-! ### Basic facts about characters and UTF-8 bytes -/

theorem Char.toNat_lt_unicode (c : Char) : c.toNat < 0x110000 := by
  rcases c.valid with h | ⟨_, h⟩
  · exact Nat.lt_trans h (by norm_num)
  · exact h

theorem utf8Char_bytes_lt (c : Char) : ∀ b ∈ utf8Char c, b < 256 := by
  intro b hb
  have hv := Char.toNat_lt_unicode c
  simp only [utf8Char] at hb
  split at hb
  · simp only [List.mem_singleton] at hb
    omega
  · split at hb
    · simp only [List.mem_cons, List.mem_singleton, List.not_mem_nil, or_false] at hb
      have h1 : c.toNat / 0x40 < 0x20 := by omega
      have h2 : c.toNat % 0x40 < 0x40 := Nat.mod_lt _ (by norm_num)
      rcases hb with hb | hb <;> omega
    · split at hb
      · simp only [List.mem_cons, List.mem_singleton, List.not_mem_nil, or_false] at hb
        have h1 : c.toNat / 0x1000 < 0x10 := by omega
        have h2 : c.toNat / 0x40 % 0x40 < 0x40 := Nat.mod_lt _ (by norm_num)
        have h3 : c.toNat % 0x40 < 0x40 := Nat.mod_lt _ (by norm_num)
        rcases hb with hb | hb | hb <;> omega
      · simp only [List.mem_cons, List.mem_singleton, List.not_mem_nil, or_false] at hb
        have h1 : c.toNat / 0x40000 < 0x5 := by omega
        have h2 : c.toNat / 0x1000 % 0x40 < 0x40 := Nat.mod_lt _ (by norm_num)
        have h3 : c.toNat / 0x40 % 0x40 < 0x40 := Nat.mod_lt _ (by norm_num)
        have h4 : c.toNat % 0x40 < 0x40 := Nat.mod_lt _ (by norm_num)
        rcases hb with hb | hb | hb | hb <;> omega

theorem utf8Bytes_lt (cs : List Char) : ∀ b ∈ utf8Bytes cs, b < 256 := by
  intro b hb
  simp only [utf8Bytes, List.mem_flatten, List.mem_map] at hb
  obtain ⟨l, ⟨c, _, rfl⟩, hbl⟩ := hb
  exact utf8Char_bytes_lt c b hbl

theorem utf8Char_ascii {c : Char} (h : c.toNat < 128) : utf8Char c = [c.toNat] := by
  unfold utf8Char
  simp only [if_pos h]

theorem utf8Len_ascii {cs : List Char} (h : ∀ c ∈ cs, c.toNat < 128) :
    utf8Len cs = cs.length := by
  induction cs with
  | nil => rfl
  | cons c rest ih =>
    have hc : c.toNat < 128 := h c (List.mem_cons_self _ _)
    have hrest : ∀ x ∈ rest, x.toNat < 128 := fun x hx => h x (List.mem_cons_of_mem _ hx)
    have ihr := ih hrest
    simp only [utf8Len, utf8Bytes] at ihr
    simp only [utf8Len, utf8Bytes, List.map_cons, List.flatten_cons, List.length_append,
      utf8Char_ascii hc, List.length_singleton, ihr, List.length_cons, List.length_nil]
    omega

theorem sanitizeChar_ascii (c : Char) : (sanitizeChar c).toNat < 128 := by
  unfold sanitizeChar
  split
  · next h =>
    simp only [isAsciiAlphanumeric, Bool.or_eq_true, Bool.and_eq_true, decide_eq_true_eq,
      beq_iff_eq] at h
    rcases h with ((⟨h1, h2⟩ | ⟨h1, h2⟩) | ⟨h1, h2⟩) | h
    · omega
    · omega
    · omega
    · rw [h]; decide
  · decide

theorem sanitizeChar_allowed (c : Char) : allowedChar (sanitizeChar c) = true := by
  unfold sanitizeChar allowedChar
  split
  · next h => exact h
  · decide

theorem truncateBytes_ascii {cs : List Char} (h : ∀ c ∈ cs, c.toNat < 128) :
    ∀ n, truncateBytes cs n = cs.take n := by
  induction cs with
  | nil => intro n; cases n <;> rfl
  | cons c rest ih =>
    intro n
    have hc : c.toNat < 128 := h c (List.mem_cons_self _ _)
    have hrest : ∀ x ∈ rest, x.toNat < 128 := fun x hx => h x (List.mem_cons_of_mem _ hx)
    have hlen : utf8Len [c] = 1 := by
      simp [utf8Len, utf8Bytes, utf8Char_ascii hc]
    unfold truncateBytes
    rw [hlen]
    rcases n with _ | m
    · simp
    · simp only [Nat.le_add_left 1 m, if_pos, Nat.add_sub_cancel, ih hrest, List.take_succ_cons]

/-! ### The checksum loop: the `u64` arithmetic never wraps -/

theorem checksumStep_eq_spec {sum b : Nat} (hs : sum < MOD) (hb : b < 256) :
    checksumStep sum b = specChecksumStep sum b := by
  unfold checksumStep specChecksumStep
  unfold MOD at hs
  have h1 : sum * 31 < 2 ^ 64 := by omega
  have h2 : sum * 31 + b < 2 ^ 64 := by omega
  rw [Nat.mod_eq_of_lt h1, Nat.mod_eq_of_lt h2]

theorem specChecksumStep_lt (sum b : Nat) : specChecksumStep sum b < MOD :=
  Nat.mod_lt _ (by unfold MOD; norm_num)

theorem foldl_specChecksumStep_lt (bs : List Nat) :
    ∀ {acc : Nat}, acc < MOD → bs.foldl specChecksumStep acc < MOD := by
  induction bs with
  | nil => intro acc h; exact h
  | cons b rest ih => intro acc _; exact ih (specChecksumStep_lt acc b)

theorem foldl_checksumStep_eq_spec (bs : List Nat) (hb : ∀ b ∈ bs, b < 256) :
    ∀ acc, acc < MOD → bs.foldl checksumStep acc = bs.foldl specChecksumStep acc := by
  induction bs with
  | nil => intro acc _; rfl
  | cons b rest ih =>
    intro acc hacc
    have hb0 : b < 256 := hb b (List.mem_cons_self _ _)
    simp only [List.foldl_cons, checksumStep_eq_spec hacc hb0]
    exact ih (fun x hx => hb x (List.mem_cons_of_mem _ hx)) _ (specChecksumStep_lt acc b)

theorem checksumValue_eq_spec (s : String) : checksumValue s = specChecksum s :=
  foldl_checksumStep_eq_spec _ (utf8Bytes_lt s.data) 0 (by unfold MOD; norm_num)

theorem checksumValue_lt (s : String) : checksumValue s < MOD := by
  rw [checksumValue_eq_spec]
  exact foldl_specChecksumStep_lt _ (by unfold MOD; norm_num)

/-! ### Decimal rendering: every character of `Nat.repr` is a digit -/

theorem digitChar_digit {n : Nat} (h : n < 10) :
    48 ≤ (Nat.digitChar n).toNat ∧ (Nat.digitChar n).toNat ≤ 57 := by
  interval_cases n <;> decide

theorem toDigitsCore_digits (fuel : Nat) :
    ∀ (n : Nat) (ds : List Char),
      (∀ c ∈ ds, 48 ≤ c.toNat ∧ c.toNat ≤ 57) →
      ∀ c ∈ Nat.toDigitsCore 10 fuel n ds, 48 ≤ c.toNat ∧ c.toNat ≤ 57 := by
  induction fuel with
  | zero => intro n ds hds c hc; exact hds c hc
  | succ fuel ih =>
    intro n ds hds c hc
    simp only [Nat.toDigitsCore] at hc
    have hd : ∀ x ∈ (Nat.digitChar (n % 10) :: ds), 48 ≤ x.toNat ∧ x.toNat ≤ 57 := by
      intro x hx
      rcases List.mem_cons.mp hx with rfl | hx
      · exact digitChar_digit (Nat.mod_lt _ (by norm_num))
      · exact hds x hx
    split at hc
    · exact hd c hc
    · exact ih _ _ hd c hc

theorem repr_data_digits (n : Nat) :
    ∀ c ∈ (Nat.repr n).data, 48 ≤ c.toNat ∧ c.toNat ≤ 57 := by
  intro c hc
  have hrepr : (Nat.repr n).data = Nat.toDigits 10 n := rfl
  rw [hrepr] at hc
  exact toDigitsCore_digits _ _ _ (by intro x hx; exact absurd hx (List.not_mem_nil x)) c hc

theorem repr_data_ascii (n : Nat) : ∀ c ∈ (Nat.repr n).data, c.toNat < 128 := by
  intro c hc
  have := repr_data_digits n c hc
  omega

theorem checksumDigits_length_le (s : String) : (checksumDigits s).length ≤ 10 := by
  have h1 : checksumValue s < 10 ^ 10 := by
    have := checksumValue_lt s
    unfold MOD at this
    omega
  have h2 := Nat.repr_length (checksumValue s) 10 (by norm_num) h1
  exact h2

/-! ### Decomposition of the sanitizer's output -/

theorem sanitized_ascii (s : String) : ∀ c ∈ s.data.map sanitizeChar, c.toNat < 128 := by
  intro c hc
  obtain ⟨x, _, rfl⟩ := List.mem_map.mp hc
  exact sanitizeChar_ascii x

/-- The output of `sanitize_and_checksum` is exactly the fixed five
characters `ros2_`, then the first `maxSanLen` characters of the
sanitized input, then the decimal checksum digits. -/
theorem sanitize_decomp (s : String) :
    (sanitize_and_checksum s).data =
      "ros2_".data ++ sanSegment s ++ checksumDigits s := by
  have hasc := sanitized_ascii s
  have hsanlen : utf8Len (List.map sanitizeChar s.data) =
      (List.map sanitizeChar s.data).length := utf8Len_ascii hasc
  have hcslen : utf8Len (Nat.repr (checksumBytes (utf8Bytes s.data))).data =
      (Nat.repr (checksumBytes (utf8Bytes s.data))).data.length :=
    utf8Len_ascii (repr_data_ascii _)
  have hpre : utf8Len "ros2_".data = 5 := by decide
  simp only [sanitize_and_checksum, sanSegment, checksumDigits, maxSanLen, checksumValue,
    hpre, hcslen, hsanlen, String.data_append]
  split
  · next h => rw [truncateBytes_ascii hasc]
  · next h => rw [List.take_of_length_le (by omega)]

/-! ### The relay handler

The handler registered with `provide_async` in `main`.  The downstream
client's two fallible asynchronous operations are supplied as oracles
(`send`, `receive`), and wall-clock time is abstracted to a `Nat` instant
supplied as a parameter.  `f32` values are modelled by the exact rational
number a finite `f32` denotes. -/

/-- Transport-level error value, opaque to the handler. -/
structure TransportError where
  code : Nat
deriving DecidableEq

/-- Token identifying an in-flight downstream request. -/
structure RequestId where
  id : Nat
deriving DecidableEq

/-- Downstream request shape (`example_interfaces/AddTwoInts`). -/
structure AddTwoIntsRequest where
  a : Int
  b : Int
deriving DecidableEq

/-- Downstream response shape: the single sum field. -/
structure AddTwoIntsResponse where
  sum : Int
deriving DecidableEq

/-- Inbound message: two coordinate values. -/
structure Translation2D where
  x : ℚ
  y : ℚ
deriving DecidableEq

/-- Outbound message: an optional timestamp and one numeric field. -/
structure Translation1D where
  timestamp : Option Nat
  x : ℚ
deriving DecidableEq

/-- Modelled from the spec: the Rust cast `f as i64` on a finite `f32`
("silent truncation with no overflow check"): drop the fractional part
(round toward zero) and saturate at the `i64` range bounds.  The float is
represented by the exact rational it denotes; non-finite values are not
modelled. -/
def f32_as_i64 (q : ℚ) : Int :=
  max (-(2 ^ 63)) (min (2 ^ 63 - 1) (q.num / (q.den : Int)))

/-- Modelled from the spec: the Rust cast `n as f32` ("integer-to-float
conversion using silent rounding").  Exact on the small sums exercised
here; the rounding applied to magnitudes above the `f32` precision is not
modelled. -/
def i64_as_f32 (n : Int) : ℚ := (n : ℚ)

/-- Modelled from the spec: `Timestamp::get_current_time` yields the
current wall-clock time, abstracted to the instant `now`. -/
def getCurrentTime (now : Nat) : Option Nat := some now

/-- The downstream request the handler derives from an inbound request by
direct numeric casts (`req.x as i64`, `req.y as i64`). -/
def rosRequestOf (req : Translation2D) : AddTwoIntsRequest :=
  { a := f32_as_i64 req.x, b := f32_as_i64 req.y }

/-- The sentinel outbound response: absent timestamp, numeric field 0. -/
def sentinelResponse : Translation1D := { timestamp := none, x := 0 }

/-- Result of one relay invocation: the outbound response delivered to
the provider, plus how many downstream send and receive calls the handler
issued (recorded per match arm of the source). -/
structure RelayOutcome where
  response : Translation1D
  sendCalls : Nat
  recvCalls : Nat
deriving DecidableEq

/-- Embedding of the `provide_async` closure from `main`: derive the
downstream request by direct casts, submit it, await the response, and
produce exactly one outbound message.  Both downstream steps are fallible;
their outcomes are supplied by the environment oracles `send` and
`receive`.  Each `Except.error` arm absorbs the failure into the sentinel
response. -/
def provide_async (now : Nat) (req : Translation2D)
    (send : AddTwoIntsRequest → Except TransportError RequestId)
    (receive : RequestId → Except TransportError AddTwoIntsResponse) :
    RelayOutcome :=
  match send (rosRequestOf req) with
  | Except.ok req_id =>
    match receive req_id with
    | Except.ok response =>
        { response := { timestamp := getCurrentTime now, x := i64_as_f32 response.sum }
          sendCalls := 1
          recvCalls := 1 }
    | Except.error _ =>
        { response := sentinelResponse, sendCalls := 1, recvCalls := 1 }
  | Except.error _ =>
      { response := sentinelResponse, sendCalls := 1, recvCalls := 0 }

/-! ### Remaining helper lemmas -/

theorem allowedChar_ascii {c : Char} (h : allowedChar c = true) : c.toNat < 128 := by
  simp only [allowedChar, isAsciiAlphanumeric, Bool.or_eq_true, Bool.and_eq_true,
    decide_eq_true_eq, beq_iff_eq] at h
  rcases h with ((⟨h1, h2⟩ | ⟨h1, h2⟩) | ⟨h1, h2⟩) | h
  · omega
  · omega
  · omega
  · rw [h]; decide

theorem checksumStep_lt (acc b : Nat) : checksumStep acc b < MOD :=
  Nat.mod_lt _ (by unfold MOD; norm_num)

theorem scanl_checksumStep_lt (bs : List Nat) :
    ∀ acc, acc < MOD → ∀ x ∈ bs.scanl checksumStep acc, x < MOD := by
  induction bs with
  | nil =>
    intro acc h x hx
    simp only [List.scanl_nil, List.mem_singleton] at hx
    omega
  | cons b rest ih =>
    intro acc h x hx
    rw [List.scanl_cons] at hx
    rcases List.mem_cons.mp hx with rfl | hx
    · exact h
    · exact ih _ (checksumStep_lt acc b) x hx

/-! ### Claim theorems -/

/-- C1: for every inbound request, if the downstream send fails, or the
send succeeds and the response retrieval fails, the relay handler returns
exactly the sentinel outbound response (absent timestamp, numeric field
0), issues exactly one send and at most one receive call (no retry), and
returns normally — the failure is absorbed, never escalated. -/
theorem C1_failure_sentinel (now : Nat) (req : Translation2D)
    (send : AddTwoIntsRequest → Except TransportError RequestId)
    (receive : RequestId → Except TransportError AddTwoIntsResponse)
    (hfail : (∃ e, send (rosRequestOf req) = Except.error e) ∨
      (∃ req_id e, send (rosRequestOf req) = Except.ok req_id ∧
        receive req_id = Except.error e)) :
    (provide_async now req send receive).response = sentinelResponse ∧
    (provide_async now req send receive).sendCalls = 1 ∧
    (provide_async now req send receive).recvCalls ≤ 1 := by
  rcases hfail with ⟨e, he⟩ | ⟨req_id, e, hok, herr⟩
  · simp only [provide_async, he]
    exact ⟨trivial, trivial, by norm_num⟩
  · simp only [provide_async, hok, herr]
    exact ⟨trivial, trivial, by norm_num⟩

/-- Witness for C1: a concrete failing send oracle yields the sentinel. -/
theorem C1_failure_sentinel_witness :
    (provide_async 0 ⟨3, 4⟩ (fun _ => Except.error ⟨7⟩)
        (fun _ => Except.ok ⟨0⟩)).response = sentinelResponse ∧
    (provide_async 0 ⟨3, 4⟩ (fun _ => Except.error ⟨7⟩)
        (fun _ => Except.ok ⟨0⟩)).sendCalls = 1 ∧
    (provide_async 0 ⟨3, 4⟩ (fun _ => Except.error ⟨7⟩)
        (fun _ => Except.ok ⟨0⟩)).recvCalls ≤ 1 :=
  C1_failure_sentinel 0 ⟨3, 4⟩ (fun _ => Except.error ⟨7⟩)
    (fun _ => Except.ok ⟨0⟩) (Or.inl ⟨⟨7⟩, rfl⟩)

/-- C2: for every input string, `sanitize_and_checksum` produces only
ASCII letters, digits and underscore, begins with the fixed five
characters `ros2_`, and its total length is at most 256, both counted in
characters and counted in UTF-8 bytes. -/
theorem C2_identifier_shape (s : String) :
    (∀ c ∈ (sanitize_and_checksum s).data, allowedChar c = true) ∧
    (∃ rest, (sanitize_and_checksum s).data = "ros2_".data ++ rest) ∧
    (sanitize_and_checksum s).length ≤ 256 ∧
    utf8Len (sanitize_and_checksum s).data ≤ 256 := by
  have hdec := sanitize_decomp s
  have hcs := checksumDigits_length_le s
  have hseg : (sanSegment s).length ≤ 256 - 5 - (checksumDigits s).length := by
    simp only [sanSegment, maxSanLen, List.length_take]
    exact min_le_left _ _
  have hpre5 : ("ros2_".data).length = 5 := by decide
  have hall : ∀ c ∈ (sanitize_and_checksum s).data, allowedChar c = true := by
    intro c hc
    rw [hdec] at hc
    simp only [List.append_assoc, List.mem_append] at hc
    rcases hc with hc | hc | hc
    · exact (by decide : ∀ x ∈ "ros2_".data, allowedChar x = true) c hc
    · obtain ⟨x, _, rfl⟩ := List.mem_map.mp (List.mem_of_mem_take hc)
      exact sanitizeChar_allowed x
    · have hd := repr_data_digits _ c hc
      simp only [allowedChar, isAsciiAlphanumeric, Bool.or_eq_true, Bool.and_eq_true,
        decide_eq_true_eq, beq_iff_eq]
      exact Or.inl (Or.inl (Or.inl ⟨hd.1, hd.2⟩))
  have hlen : (sanitize_and_checksum s).data.length ≤ 256 := by
    rw [hdec]
    simp only [List.length_append, List.length_cons, List.length_nil]
    omega
  refine ⟨hall, ⟨sanSegment s ++ checksumDigits s, by rw [hdec, List.append_assoc]⟩, hlen, ?_⟩
  rw [utf8Len_ascii (fun c hc => allowedChar_ascii (hall c hc))]
  exact hlen

/-- C3: whenever the downstream send and receive both succeed, the relay
handler returns a response whose timestamp is present — the wall-clock
instant captured at completion — and whose numeric field is the
downstream sum converted by direct cast. -/
theorem C3_success_response (now : Nat) (req : Translation2D)
    (send : AddTwoIntsRequest → Except TransportError RequestId)
    (receive : RequestId → Except TransportError AddTwoIntsResponse)
    (req_id : RequestId) (resp : AddTwoIntsResponse)
    (hsend : send (rosRequestOf req) = Except.ok req_id)
    (hrecv : receive req_id = Except.ok resp) :
    (provide_async now req send receive).response =
      { timestamp := some now, x := i64_as_f32 resp.sum } := by
  simp only [provide_async, hsend, hrecv]
  rfl

/-- Witness for C3: inbound `{x: 3.0, y: 4.0}` with downstream sum 7
yields a present timestamp and `x = 7.0`. -/
theorem C3_success_response_witness :
    (provide_async 5 ⟨3, 4⟩ (fun _ => Except.ok ⟨1⟩)
        (fun _ => Except.ok ⟨7⟩)).response = { timestamp := some 5, x := 7 } := by
  have h := C3_success_response 5 ⟨3, 4⟩ (fun _ => Except.ok ⟨1⟩)
    (fun _ => Except.ok ⟨7⟩) ⟨1⟩ ⟨7⟩ rfl rfl
  simpa [i64_as_f32] using h

/-- C4 (counterexample): two distinct short inputs — far below the
truncation budget — that collide: their sanitized segments differ and
their checksums differ, yet the outputs are equal, refuting both parts of
the original claim. -/
theorem C4_counterexample :
    String.mk [Char.ofNat 0x6CC9E, Char.ofNat 0x8EA4] ≠
      String.mk [Char.ofNat 0x0D03, Char.ofNat 0x22C8, '9'] ∧
    sanitize_and_checksum (String.mk [Char.ofNat 0x6CC9E, Char.ofNat 0x8EA4]) =
      sanitize_and_checksum (String.mk [Char.ofNat 0x0D03, Char.ofNat 0x22C8, '9']) ∧
    (String.mk [Char.ofNat 0x6CC9E, Char.ofNat 0x8EA4]).data.length ≤
      maxSanLen (String.mk [Char.ofNat 0x6CC9E, Char.ofNat 0x8EA4]) ∧
    (String.mk [Char.ofNat 0x0D03, Char.ofNat 0x22C8, '9']).data.length ≤
      maxSanLen (String.mk [Char.ofNat 0x0D03, Char.ofNat 0x22C8, '9']) ∧
    sanSegment (String.mk [Char.ofNat 0x6CC9E, Char.ofNat 0x8EA4]) ≠
      sanSegment (String.mk [Char.ofNat 0x0D03, Char.ofNat 0x22C8, '9']) ∧
    checksumValue (String.mk [Char.ofNat 0x6CC9E, Char.ofNat 0x8EA4]) ≠
      checksumValue (String.mk [Char.ofNat 0x0D03, Char.ofNat 0x22C8, '9']) := by
  decide

/-- C4 (amended): a collision always forces the concatenation of
truncated sanitized segment and checksum digits to agree, and whenever
the two checksum strings additionally have the same number of digits it
forces the truncated segments and the checksums to agree separately;
distinct short inputs can still collide. -/
theorem C4_amended_collision (s1 s2 : String)
    (hcol : sanitize_and_checksum s1 = sanitize_and_checksum s2)
    (hlen : (checksumDigits s1).length = (checksumDigits s2).length) :
    sanSegment s1 ++ checksumDigits s1 = sanSegment s2 ++ checksumDigits s2 ∧
    sanSegment s1 = sanSegment s2 ∧ checksumDigits s1 = checksumDigits s2 := by
  have h1 := sanitize_decomp s1
  have h2 := sanitize_decomp s2
  rw [hcol, h2] at h1
  rw [List.append_assoc, List.append_assoc] at h1
  have h3 : sanSegment s2 ++ checksumDigits s2 = sanSegment s1 ++ checksumDigits s1 :=
    List.append_cancel_left h1
  have h4 := List.append_inj' h3 hlen.symm
  exact ⟨h3.symm, h4.1.symm, h4.2.symm⟩

/-- Witness for the amended C4: a concrete colliding pair with
equal-length checksums has equal segments and equal checksums. -/
theorem C4_amended_collision_witness :
    sanSegment (String.mk [Char.ofNat 0xC0]) ++ checksumDigits (String.mk [Char.ofNat 0xC0]) =
      sanSegment (String.mk [Char.ofNat 0x9F]) ++
        checksumDigits (String.mk [Char.ofNat 0x9F]) ∧
    sanSegment (String.mk [Char.ofNat 0xC0]) = sanSegment (String.mk [Char.ofNat 0x9F]) ∧
    checksumDigits (String.mk [Char.ofNat 0xC0]) =
      checksumDigits (String.mk [Char.ofNat 0x9F]) :=
  C4_amended_collision (String.mk [Char.ofNat 0xC0]) (String.mk [Char.ofNat 0x9F])
    (by decide) (by decide)

/-- C5: the checksum suffix of the output is the decimal rendering of the
spec's rolling hash over the raw bytes of the original input
(`sum = (sum * 31 + b) mod 1_000_000_007` starting from 0), and the
source's `u64` loop computes exactly that value. -/
theorem C5_checksum_raw_bytes (s : String) :
    checksumValue s = specChecksum s ∧
    (sanitize_and_checksum s).data =
      "ros2_".data ++ sanSegment s ++ (Nat.repr (specChecksum s)).data := by
  refine ⟨checksumValue_eq_spec s, ?_⟩
  rw [sanitize_decomp s]
  simp only [checksumDigits, checksumValue_eq_spec s]

/-- C6: the sanitized-segment budget is `256 - len(prefix) -
len(checksum)`, the sanitized characters beyond this budget are cut to
exactly that many leading characters (counted in characters), and the
output is the concatenation of prefix, truncated segment and checksum. -/
theorem C6_budget_truncation (s : String) :
    (sanitize_and_checksum s).data =
      "ros2_".data ++
        (s.data.map sanitizeChar).take (256 - 5 - (checksumDigits s).length) ++
        checksumDigits s ∧
    (256 - 5 - (checksumDigits s).length < (s.data.map sanitizeChar).length →
      ((s.data.map sanitizeChar).take (256 - 5 - (checksumDigits s).length)).length =
        256 - 5 - (checksumDigits s).length) := by
  constructor
  · have h := sanitize_decomp s
    simpa only [sanSegment, maxSanLen] using h
  · intro h
    simp only [List.length_take]
    omega

/-- Witness for C6: a 260-character input overruns the budget and its
sanitized segment is cut to exactly the budget length. -/
theorem C6_budget_truncation_witness :
    (sanitize_and_checksum (String.mk (List.replicate 260 'a'))).data =
      "ros2_".data ++
        ((String.mk (List.replicate 260 'a')).data.map sanitizeChar).take
          (256 - 5 - (checksumDigits (String.mk (List.replicate 260 'a'))).length) ++
        checksumDigits (String.mk (List.replicate 260 'a')) ∧
    (((String.mk (List.replicate 260 'a')).data.map sanitizeChar).take
        (256 - 5 - (checksumDigits (String.mk (List.replicate 260 'a'))).length)).length =
      256 - 5 - (checksumDigits (String.mk (List.replicate 260 'a'))).length :=
  ⟨(C6_budget_truncation (String.mk (List.replicate 260 'a'))).1,
    (C6_budget_truncation (String.mk (List.replicate 260 'a'))).2 (by decide)⟩

/-- C7: the budget computation cannot underflow: prefix plus checksum
lengths total at most 15, far below 256, the unsigned subtraction agrees
with the exact integer subtraction, and the budget always lies between
241 and 251 — never negative, never a wrapped huge value. -/
theorem C7_no_underflow (s : String) :
    5 + (checksumDigits s).length ≤ 15 ∧
    (maxSanLen s : ℤ) = 256 - 5 - ((checksumDigits s).length : ℤ) ∧
    241 ≤ maxSanLen s ∧ maxSanLen s ≤ 251 := by
  have h := checksumDigits_length_le s
  have hdef : maxSanLen s = 256 - 5 - (checksumDigits s).length := rfl
  refine ⟨by omega, ?_, by omega, by omega⟩
  rw [hdef]
  omega

/-- C9: the empty input string maps to exactly `ros2_0`: empty sanitized
segment and checksum 0 rendered in decimal. -/
theorem C9_empty_input : sanitize_and_checksum "" = "ros2_0" := by decide

/-- C10: every accumulator value reached by the checksum loop stays below
1_000_000_007, and hence `sum * 31 + b` stays below `2 ^ 64` for every
input byte — the `u64` arithmetic of the loop never wraps. -/
theorem C10_no_overflow (s : String) (acc b : Nat)
    (hacc : acc ∈ (utf8Bytes s.data).scanl checksumStep 0)
    (hb : b ∈ utf8Bytes s.data) :
    acc < MOD ∧ acc * 31 + b < 2 ^ 64 ∧
    (acc * 31 % 2 ^ 64 + b) % 2 ^ 64 = acc * 31 + b := by
  have h1 : acc < MOD := scanl_checksumStep_lt _ 0 (by unfold MOD; norm_num) acc hacc
  have h2 : b < 256 := utf8Bytes_lt _ b hb
  refine ⟨h1, ?_, ?_⟩
  · unfold MOD at h1
    omega
  · unfold MOD at h1
    rw [Nat.mod_eq_of_lt (by omega : acc * 31 < 2 ^ 64),
      Nat.mod_eq_of_lt (by omega : acc * 31 + b < 2 ^ 64)]

/-- Witness for C10: concrete accumulator and byte from the input `ab`. -/
theorem C10_no_overflow_witness :
    3105 < MOD ∧ 3105 * 31 + 98 < 2 ^ 64 ∧
    (3105 * 31 % 2 ^ 64 + 98) % 2 ^ 64 = 3105 * 31 + 98 :=
  C10_no_overflow "ab" 3105 98 (by decide) (by decide)

end Bridge
